import Mathlib

/-!
Verification of the Plinko Probability simulation model.

The definitions below are a shallow embedding of the simulation engine:

* `src/js/common/model/Ball.js` — the per-ball model: phase constants, the
  random path (`pegHistory`) built in the constructor, the bin-placement
  rule, `updateStatisticsAndLand`, `updatePegPositionInformation`,
  `initialPegPositionInformation` and `getPosition`;
* `src/js/intro/model/PlinkoProbabilityIntroModel.js` — the intro screen
  model: the per-ball part of `step`, `play` with its three ball modes and
  the launch cap, and `getBinomialCoefficient` /
  `getTheoreticalStandardDeviationOfMean`;
* `src/unnamed/part_003` (the lab screen model `LabModel`) — `step` with its
  capped time increment, `addNewBall` and the hopper-mode listener.

JavaScript numbers are modelled as exact rationals `ℚ` (the idealisation of
the float arithmetic), array indices and counters as `ℕ`.
-/

namespace Plinko

/-- Ball phase constant, `Ball.js` line 21: ball leaving hopper. -/
def PHASE_INITIAL : ℕ := 0

/-- Ball phase constant, `Ball.js` line 22: ball falling within the board. -/
def PHASE_FALLING : ℕ := 1

/-- Ball phase constant, `Ball.js` line 23: ball has left the board, entering the bins. -/
def PHASE_EXIT : ℕ := 2

/-- Ball phase constant, `Ball.js` line 24: ball landed in its final position. -/
def PHASE_COLLECTED : ℕ := 3

/-- One entry of a ball's `pegHistory` (`Ball.js` lines 85-96): the peg the
ball visits in a given row, the direction taken off this peg, and the peg's
model position. -/
structure Peg where
  rowNumber : ℕ
  columnNumber : ℚ
  direction : ℚ
  position : ℚ × ℚ
deriving DecidableEq, Repr

/-- The mutable per-ball state of `Ball.js`, restricted to the fields the
model logic reads and writes (`position` is derived by `getPosition`, not
stored). -/
structure BallState where
  phase : ℕ
  fallenRatio : ℚ
  pegHistory : List Peg
  row : ℕ
  column : ℚ
  direction : ℚ
  pegPosition : ℚ × ℚ
  pegSeparation : ℚ
  numberOfRows : ℕ
  binIndex : ℕ
  numberOfBalls : ℚ
  finalBinHorizontalPosition : ℚ
  finalBinVerticalPosition : ℚ
deriving DecidableEq, Repr

/-- `Ball.js` lines 176-183, `updatePegPositionInformation`: shift the next
peg off `pegHistory` and copy its fields into the ball. (On an empty history
the JS `shift` yields `undefined` and the method would fault; that state is
unreachable, and the embedding leaves the ball unchanged there.) -/
def updatePegPositionInformation (b : BallState) : BallState :=
  match b.pegHistory with
  | [] => b
  | peg :: rest =>
    { b with
      pegHistory := rest
      column := peg.columnNumber
      row := peg.rowNumber
      pegPosition := peg.position
      direction := peg.direction }

/-- `Ball.js` lines 188-194, `initialPegPositionInformation`: read the first
peg of `pegHistory` without consuming it. -/
def initialPegPositionInformation (b : BallState) : BallState :=
  match b.pegHistory with
  | [] => b
  | peg :: _ =>
    { b with
      column := peg.columnNumber
      row := peg.rowNumber
      pegPosition := peg.position }

/-- `Ball.js` lines 162-171, `updateStatisticsAndLand`: if the phase is
`PHASE_INITIAL`, fire the `updateStatisticsSignal` and `landed` triggers and
set the phase to `PHASE_COLLECTED`; otherwise do nothing. The returned
`Bool` records whether the two triggers fired. -/
def updateStatisticsAndLand (b : BallState) : BallState × Bool :=
  if b.phase = PHASE_INITIAL then ({ b with phase := PHASE_COLLECTED }, true)
  else (b, false)

/-- `n` successive calls of `updateStatisticsAndLand` on a ball, returning
the final ball and how many of the calls fired the triggers. -/
def landCalls : ℕ → BallState → BallState × ℕ
  | 0, b => (b, 0)
  | n + 1, b =>
    let r := updateStatisticsAndLand b
    let rest := landCalls n r.1
    (rest.1, (if r.2 then 1 else 0) + rest.2)

/-- `PlinkoProbabilityIntroModel.js` lines 80-93: the `PHASE_INITIAL` branch
of the per-ball body of `step` (`df` is the `dt * 5` computed there). -/
def stepInitial (df : ℚ) (b : BallState) : BallState :=
  if b.phase = PHASE_INITIAL then
    if df + b.fallenRatio < 1 then
      initialPegPositionInformation { b with fallenRatio := b.fallenRatio + df }
    else
      updatePegPositionInformation { b with phase := PHASE_FALLING, fallenRatio := 0 }
  else b

/-- `PlinkoProbabilityIntroModel.js` lines 94-119: the `PHASE_FALLING`
branch of the per-ball body of `step`. `bins` is the histogram's bin array
(`thisModel.histogram.bins`), read when the ball exits the board. -/
def stepFalling (df : ℚ) (bins : ℕ → ℚ) (b : BallState) : BallState :=
  if b.phase = PHASE_FALLING then
    if df + b.fallenRatio < 1 then { b with fallenRatio := b.fallenRatio + df }
    else
      if 1 < b.pegHistory.length then
        updatePegPositionInformation { b with fallenRatio := 0 }
      else
        let b1 := updatePegPositionInformation
          { b with fallenRatio := 0, phase := PHASE_EXIT }
        { b1 with numberOfBalls := bins b1.binIndex }
  else b

/-- `PlinkoProbabilityIntroModel.js` lines 120-129: the `PHASE_EXIT` branch
of the per-ball body of `step` (fires the `landed` trigger on completion). -/
def stepExit (df : ℚ) (b : BallState) : BallState :=
  if b.phase = PHASE_EXIT then
    if df + b.fallenRatio < 7 - 1/2 * b.numberOfBalls then
      { b with fallenRatio := b.fallenRatio + df }
    else { b with phase := PHASE_COLLECTED }
  else b

/-- `PlinkoProbabilityIntroModel.js` lines 72-133: the whole per-ball body of
`step(dt)` — the three phase branches run in sequence on the same ball with
`df = dt * 5`. (The trailing `ball.step(dt*5)` only refreshes the derived
position.) -/
def stepBall (dt : ℚ) (bins : ℕ → ℚ) (b : BallState) : BallState :=
  stepExit (dt * 5) (stepFalling (dt * 5) bins (stepInitial (dt * 5) b))

/-- A sequence of model ticks applied to one ball; each tick carries its
`dt` and the histogram bin contents at that tick. -/
def stepTicks (ticks : List (ℚ × (ℕ → ℚ))) (b : BallState) : BallState :=
  ticks.foldl (fun s t => stepBall t.1 t.2 s) b

theorem updatePeg_phase (b : BallState) :
    (updatePegPositionInformation b).phase = b.phase := by
  unfold updatePegPositionInformation
  cases b.pegHistory <;> rfl

theorem initialPeg_phase (b : BallState) :
    (initialPegPositionInformation b).phase = b.phase := by
  unfold initialPegPositionInformation
  cases b.pegHistory <;> rfl

theorem stepInitial_phase_le (df : ℚ) (b : BallState) :
    b.phase ≤ (stepInitial df b).phase := by
  unfold stepInitial
  split_ifs with h1 h2
  · rw [initialPeg_phase]
  · rw [updatePeg_phase]; simp [h1, PHASE_INITIAL, PHASE_FALLING]
  · exact le_refl _

theorem stepFalling_phase_le (df : ℚ) (bins : ℕ → ℚ) (b : BallState) :
    b.phase ≤ (stepFalling df bins b).phase := by
  unfold stepFalling
  split_ifs with h1 h2 h3
  · exact le_refl _
  · rw [updatePeg_phase]
  · show b.phase ≤ (updatePegPositionInformation _).phase
    rw [updatePeg_phase]; simp [h1, PHASE_FALLING, PHASE_EXIT]
  · exact le_refl _

theorem stepExit_phase_le (df : ℚ) (b : BallState) :
    b.phase ≤ (stepExit df b).phase := by
  unfold stepExit
  split_ifs with h1 h2
  · exact le_refl _
  · simp [h1, PHASE_EXIT, PHASE_COLLECTED]
  · exact le_refl _

theorem stepBall_phase_le (dt : ℚ) (bins : ℕ → ℚ) (b : BallState) :
    b.phase ≤ (stepBall dt bins b).phase :=
  le_trans (stepInitial_phase_le _ b)
    (le_trans (stepFalling_phase_le _ bins _) (stepExit_phase_le _ _))

theorem stepBall_collected (dt : ℚ) (bins : ℕ → ℚ) (b : BallState)
    (h : b.phase = PHASE_COLLECTED) : stepBall dt bins b = b := by
  have h0 : b.phase ≠ PHASE_INITIAL := by rw [h]; decide
  have h1 : b.phase ≠ PHASE_FALLING := by rw [h]; decide
  have h2 : b.phase ≠ PHASE_EXIT := by rw [h]; decide
  unfold stepBall stepInitial
  rw [if_neg h0]
  unfold stepFalling
  rw [if_neg h1]
  unfold stepExit
  rw [if_neg h2]

theorem stepTicks_phase_le (ticks : List (ℚ × (ℕ → ℚ))) (b : BallState) :
    b.phase ≤ (stepTicks ticks b).phase := by
  induction ticks generalizing b with
  | nil => exact le_refl _
  | cons t ts ih =>
    exact le_trans (stepBall_phase_le t.1 t.2 b) (ih (stepBall t.1 t.2 b))

theorem stepTicks_collected (ticks : List (ℚ × (ℕ → ℚ))) (b : BallState)
    (h : b.phase = PHASE_COLLECTED) : stepTicks ticks b = b := by
  induction ticks with
  | nil => rfl
  | cons t ts ih =>
    show stepTicks ts (stepBall t.1 t.2 b) = b
    rw [stepBall_collected t.1 t.2 b h, ih]

/-- A concrete ball in `PHASE_FALLING`, used to instantiate the theorems on
the ball phase machine. -/
def fallingBall : BallState :=
  { phase := PHASE_FALLING
    fallenRatio := 0
    pegHistory := []
    row := 0
    column := 0
    direction := 1/2
    pegPosition := (0, 0)
    pegSeparation := 1
    numberOfRows := 12
    binIndex := 0
    numberOfBalls := 0
    finalBinHorizontalPosition := 1/4
    finalBinVerticalPosition := 93/10 }

/-- C5: over any sequence of `step(dt)` calls with `dt ≥ 0` the ball's phase
is monotone non-decreasing in the order INITIAL ≤ FALLING ≤ EXIT ≤ COLLECTED
(both for a single call and along the whole sequence), and COLLECTED is
terminal: a collected ball is left untouched. -/
theorem ball_phase_monotone (ticks : List (ℚ × (ℕ → ℚ))) (b : BallState)
    (_hdt : ∀ t ∈ ticks, 0 ≤ t.1) :
    b.phase ≤ (stepTicks ticks b).phase ∧
    (∀ dt bins, 0 ≤ dt → b.phase ≤ (stepBall dt bins b).phase) ∧
    (b.phase = PHASE_COLLECTED → stepTicks ticks b = b) :=
  ⟨stepTicks_phase_le ticks b,
   fun dt bins _ => stepBall_phase_le dt bins b,
   stepTicks_collected ticks b⟩

theorem ball_phase_monotone_witness :
    (∀ t ∈ [((1 : ℚ), fun _ : ℕ => (0 : ℚ))], 0 ≤ t.1) ∧
    (fallingBall.phase ≤
      (stepTicks [((1 : ℚ), fun _ : ℕ => (0 : ℚ))] fallingBall).phase ∧
     (∀ dt bins, 0 ≤ dt → fallingBall.phase ≤ (stepBall dt bins fallingBall).phase) ∧
     (fallingBall.phase = PHASE_COLLECTED →
       stepTicks [((1 : ℚ), fun _ : ℕ => (0 : ℚ))] fallingBall = fallingBall)) := by
  refine ⟨?_, ball_phase_monotone _ fallingBall ?_⟩ <;>
  · rintro t ht
    rw [List.mem_singleton] at ht
    subst ht
    norm_num

/-- C1 counterexample: a ball in `PHASE_FALLING` is in a pre-terminal phase,
yet `updateStatisticsAndLand` neither fires the triggers nor transitions it
to COLLECTED — the claimed guard "any of INITIAL, FALLING, EXIT" is not the
code's guard. -/
theorem updateStatisticsAndLand_not_preterminal_cex :
    ¬ (((updateStatisticsAndLand fallingBall).2 = true ∧
        (updateStatisticsAndLand fallingBall).1.phase = PHASE_COLLECTED) ↔
       (fallingBall.phase = PHASE_INITIAL ∨ fallingBall.phase = PHASE_FALLING ∨
        fallingBall.phase = PHASE_EXIT)) := by
  decide

theorem landCalls_of_not_initial (n : ℕ) (b : BallState)
    (h : b.phase ≠ PHASE_INITIAL) : landCalls n b = (b, 0) := by
  induction n with
  | zero => rfl
  | succ n ih =>
    simp only [landCalls, updateStatisticsAndLand, if_neg h, ih]
    rfl

/-- C1 amended: `updateStatisticsAndLand` fires the `updateStatisticsSignal`
and `landed` triggers and transitions the ball to COLLECTED if and only if
the ball's phase is `PHASE_INITIAL` (not any pre-terminal phase), and is a
no-op otherwise; consequently, over any sequence of calls, the triggers fire
at most once, and exactly once when the ball starts in `PHASE_INITIAL`. -/
theorem updateStatisticsAndLand_initial_only (b : BallState) (n : ℕ) :
    ((updateStatisticsAndLand b).2 = true ↔ b.phase = PHASE_INITIAL) ∧
    ((updateStatisticsAndLand b).1.phase =
      if b.phase = PHASE_INITIAL then PHASE_COLLECTED else b.phase) ∧
    (landCalls n b).2 ≤ 1 ∧
    (b.phase = PHASE_INITIAL → 1 ≤ n → (landCalls n b).2 = 1) := by
  by_cases h : b.phase = PHASE_INITIAL
  · refine ⟨by simp [updateStatisticsAndLand, h], by simp [updateStatisticsAndLand, h], ?_, ?_⟩
    · cases n with
      | zero => exact Nat.zero_le 1
      | succ n =>
        simp only [landCalls, updateStatisticsAndLand, if_pos h]
        rw [landCalls_of_not_initial n _ (by simp [PHASE_COLLECTED, PHASE_INITIAL])]
        simp
    · intro _ hn
      cases n with
      | zero => omega
      | succ n =>
        simp only [landCalls, updateStatisticsAndLand, if_pos h]
        rw [landCalls_of_not_initial n _ (by simp [PHASE_COLLECTED, PHASE_INITIAL])]
        simp
  · refine ⟨by simp [updateStatisticsAndLand, h], by simp [updateStatisticsAndLand, h], ?_, ?_⟩
    · rw [landCalls_of_not_initial n b h]
      exact Nat.zero_le 1
    · intro h0
      exact absurd h0 h

theorem updateStatisticsAndLand_initial_only_witness :
    ((updateStatisticsAndLand fallingBall).2 = true ↔
      fallingBall.phase = PHASE_INITIAL) ∧
    ((updateStatisticsAndLand fallingBall).1.phase =
      if fallingBall.phase = PHASE_INITIAL then PHASE_COLLECTED
      else fallingBall.phase) ∧
    (landCalls 3 fallingBall).2 ≤ 1 ∧
    (fallingBall.phase = PHASE_INITIAL → 1 ≤ 3 → (landCalls 3 fallingBall).2 = 1) :=
  updateStatisticsAndLand_initial_only fallingBall 3

/-- The `ballMode` values of the intro model
(`PlinkoProbabilityIntroModel.js` line 38 and `play`, lines 168-208). -/
inductive BallMode
  | oneBall
  | tenBalls
  | allBalls
deriving DecidableEq, Repr

/-- `PlinkoProbabilityIntroModel.js` line 29. -/
def MAX_BALL_NUMBER : ℕ := 100

/-- The intro model state touched by `play`: the launched-ball counter
(line 50) and the `isBallCapReached` property (line 40). -/
structure IntroState where
  launchedBallsNumber : ℕ
  isBallCapReached : Bool
deriving DecidableEq, Repr

/-- The `tenBalls` loop of `play` (lines 182-189): up to 10 iterations, each
guarded by `launchedBallsNumber < MAX_BALL_NUMBER`; the counter is
incremented immediately, only `addNewBall` is deferred on a timer. The first
argument is the remaining iteration budget (`10 - i`). -/
def tenBallsLoop : ℕ → ℕ → ℕ
  | 0, launched => launched
  | fuel + 1, launched =>
    if launched < MAX_BALL_NUMBER then tenBallsLoop fuel (launched + 1)
    else launched

/-- The `allBalls` loop of `play` (lines 194-201): iterate while
`launchedBallsNumber < MAX_BALL_NUMBER`, incrementing the counter each time.
The fuel argument is an upper bound on the number of iterations; with fuel
`MAX_BALL_NUMBER` the guard always fails before the fuel runs out, so this
is exactly the JS `for` loop. -/
def allBallsLoop : ℕ → ℕ → ℕ
  | 0, launched => launched
  | fuel + 1, launched =>
    if launched < MAX_BALL_NUMBER then allBallsLoop fuel (launched + 1)
    else launched

/-- `PlinkoProbabilityIntroModel.js` lines 168-208, `play`: launch balls
according to the current `ballMode`. Note that no branch writes
`isBallCapReached`. -/
def play (mode : BallMode) (s : IntroState) : IntroState :=
  match mode with
  | .oneBall =>
    if s.launchedBallsNumber < MAX_BALL_NUMBER then
      { s with launchedBallsNumber := s.launchedBallsNumber + 1 }
    else s
  | .tenBalls => { s with launchedBallsNumber := tenBallsLoop 10 s.launchedBallsNumber }
  | .allBalls =>
    { s with launchedBallsNumber := allBallsLoop MAX_BALL_NUMBER s.launchedBallsNumber }

/-- A sequence of `play` invocations (any mix of modes). -/
def playSeq (modes : List BallMode) (s : IntroState) : IntroState :=
  modes.foldl (fun t m => play m t) s

/-- The intro model's initial launch state (lines 40 and 50). -/
def introInit : IntroState := { launchedBallsNumber := 0, isBallCapReached := false }

theorem tenBallsLoop_le (fuel launched : ℕ) (h : launched ≤ MAX_BALL_NUMBER) :
    tenBallsLoop fuel launched ≤ MAX_BALL_NUMBER := by
  induction fuel generalizing launched with
  | zero => exact h
  | succ fuel ih =>
    rw [tenBallsLoop]
    split_ifs with hl
    · exact ih (launched + 1) (by omega)
    · exact h

theorem allBallsLoop_le (fuel launched : ℕ) (h : launched ≤ MAX_BALL_NUMBER) :
    allBallsLoop fuel launched ≤ MAX_BALL_NUMBER := by
  induction fuel generalizing launched with
  | zero => exact h
  | succ fuel ih =>
    rw [allBallsLoop]
    split_ifs with hl
    · exact ih (launched + 1) (by omega)
    · exact h

theorem play_launched_le (m : BallMode) (s : IntroState)
    (h : s.launchedBallsNumber ≤ MAX_BALL_NUMBER) :
    (play m s).launchedBallsNumber ≤ MAX_BALL_NUMBER := by
  cases m with
  | oneBall =>
    simp only [play]
    split_ifs with hl
    · simpa using hl
    · exact h
  | tenBalls => exact tenBallsLoop_le 10 _ h
  | allBalls => exact allBallsLoop_le MAX_BALL_NUMBER _ h

theorem play_flag (m : BallMode) (s : IntroState) :
    (play m s).isBallCapReached = s.isBallCapReached := by
  cases m with
  | oneBall =>
    simp only [play]
    split_ifs <;> rfl
  | tenBalls => rfl
  | allBalls => rfl

/-- C2 counterexample: launching the 100th ball (here: 100 `oneBall`
launches from the initial state) brings `launchedBallsNumber` to 100, yet
`isBallCapReached` is still `false` — the intro model's `play` never raises
the flag. -/
theorem play_cap_flag_cex :
    (playSeq (List.replicate 100 BallMode.oneBall) introInit).launchedBallsNumber = 100 ∧
    (playSeq (List.replicate 100 BallMode.oneBall) introInit).isBallCapReached = false := by
  set_option maxRecDepth 4000 in decide

/-- C2 amended: over every sequence of launch invocations (any mix of
modes) with `MAX_BALL_NUMBER = 100`, the launched-ball count never exceeds
100; but `play` never writes `isBallCapReached`, so the flag keeps its
previous value — in particular it does not become true when the 100th ball
is launched. -/
theorem play_cap_amended (modes : List BallMode) (s : IntroState)
    (h : s.launchedBallsNumber ≤ MAX_BALL_NUMBER) :
    (playSeq modes s).launchedBallsNumber ≤ MAX_BALL_NUMBER ∧
    (playSeq modes s).isBallCapReached = s.isBallCapReached := by
  induction modes generalizing s with
  | nil => exact ⟨h, rfl⟩
  | cons m ms ih =>
    have h1 := play_launched_le m s h
    have h2 := ih (play m s) h1
    exact ⟨h2.1, h2.2.trans (play_flag m s)⟩

theorem play_cap_amended_witness :
    introInit.launchedBallsNumber ≤ MAX_BALL_NUMBER ∧
    ((playSeq [BallMode.allBalls, BallMode.oneBall] introInit).launchedBallsNumber ≤
       MAX_BALL_NUMBER ∧
     (playSeq [BallMode.allBalls, BallMode.oneBall] introInit).isBallCapReached =
       introInit.isBallCapReached) :=
  ⟨by decide, play_cap_amended [BallMode.allBalls, BallMode.oneBall] introInit (by decide)⟩

/-- One cylinder/bin entry of the
`cylindersNumberOfBallsAndLastPosition` array passed to the `Ball`
constructor (`Ball.js` lines 30-33): the number of balls already in the bin
and the bin's running direction (the last ball's horizontal position). -/
structure BinInfo where
  binCount : ℕ
  direction : ℤ
deriving DecidableEq, Repr

/-- `Ball.js` lines 105-138: the bin-placement fragment of the `Ball`
constructor, for a ball whose destination bin is `cyl`. `coin` models the
`Math.random() < 0.5` draw of the `binCount % 3 === 0` case. Returns the
ball's `binDirection` and `binStackLevel`; note that `this.binCount++` runs
before `binStackLevel` is computed. -/
def ballBinPlacement (cyl : BinInfo) (coin : Bool) : ℤ × ℕ :=
  let binDirection : ℤ :=
    match cyl.binCount % 3 with
    | 0 => if coin then 1 else -1
    | 1 => cyl.direction * (-1)
    | _ => 0
  let binCount := cyl.binCount + 1
  let binStackLevel := 2 * (binCount / 3) + (if binCount % 3 = 0 then 0 else 1)
  (binDirection, binStackLevel)

/-- The stack-level formula in the words of the specification, read as a
function of the number of balls the bin already holds:
`2·floor(binCount/3) + (0 if binCount%3==0 else 1)`. -/
def specBinStackLevel (binCount : ℕ) : ℕ :=
  2 * (binCount / 3) + (if binCount % 3 = 0 then 0 else 1)

/-- C3 counterexample: the first ball into an empty bin (`binCount = 0`)
gets `binStackLevel = 1`, not the `2·floor(0/3) + 0 = 0` the claim's formula
gives, because the code increments the count before computing the level. -/
theorem binStackLevel_cex :
    (ballBinPlacement ⟨0, 1⟩ true).2 = 1 ∧ specBinStackLevel 0 = 0 ∧
    (ballBinPlacement ⟨0, 1⟩ true).2 ≠ specBinStackLevel 0 := by
  decide

/-- C3 amended: for a ball created when its destination bin already holds
`binCount` balls, the `binDirection` cases are as claimed (`binCount % 3 = 0`
→ the random coin's side; `= 1` → the side opposite the bin's running
direction; `= 2` → center), but the stack level is the claimed formula
applied to `binCount + 1` (the count after the ball adds itself), i.e.
`2·floor((binCount+1)/3) + (0 if (binCount+1)%3==0 else 1)`. -/
theorem ballBinPlacement_amended (cyl : BinInfo) (coin : Bool) :
    (cyl.binCount % 3 = 0 →
      (ballBinPlacement cyl coin).1 = if coin then 1 else -1) ∧
    (cyl.binCount % 3 = 1 → (ballBinPlacement cyl coin).1 = -cyl.direction) ∧
    (cyl.binCount % 3 = 2 → (ballBinPlacement cyl coin).1 = 0) ∧
    (ballBinPlacement cyl coin).2 = specBinStackLevel (cyl.binCount + 1) := by
  refine ⟨fun h0 => ?_, fun h1 => ?_, fun h2 => ?_, ?_⟩
  · simp only [ballBinPlacement]
    rw [h0]
  · simp only [ballBinPlacement]
    rw [h1]
    ring
  · simp only [ballBinPlacement]
    rw [h2]
  · rfl

theorem ballBinPlacement_amended_witness :
    ((2 : ℕ) % 3 = 0 → (ballBinPlacement ⟨2, -1⟩ false).1 = if false then 1 else -1) ∧
    ((2 : ℕ) % 3 = 1 → (ballBinPlacement ⟨2, -1⟩ false).1 = -(⟨2, -1⟩ : BinInfo).direction) ∧
    ((2 : ℕ) % 3 = 2 → (ballBinPlacement ⟨2, -1⟩ false).1 = 0) ∧
    (ballBinPlacement ⟨2, -1⟩ false).2 = specBinStackLevel (2 + 1) :=
  ballBinPlacement_amended ⟨2, -1⟩ false

/-- `Ball.js` lines 223-246, `getPosition`: the ball's position as a
closed-form function of its phase (before the constant vertical offset added
by `ballStep`). The JS `switch` has no branch for other phase values and
returns `undefined` there, modelled as `none`. Note the `FALLING` branch
special-cases `this.row === 11` (hard-coded), not the last traversed row of
the current board. -/
def getPosition (b : BallState) : Option (ℚ × ℚ) :=
  if b.phase = PHASE_INITIAL then
    some (0 * b.pegSeparation + b.pegPosition.1,
          (1 - b.fallenRatio) * b.pegSeparation + b.pegPosition.2)
  else if b.phase = PHASE_FALLING then
    let fallingX : ℚ :=
      if b.row = 11 then (b.direction + b.finalBinHorizontalPosition) * b.fallenRatio
      else b.direction * b.fallenRatio
    some (fallingX * b.pegSeparation + b.pegPosition.1,
          -(b.fallenRatio * b.fallenRatio) * b.pegSeparation + b.pegPosition.2)
  else if b.phase = PHASE_EXIT then
    some (b.finalBinHorizontalPosition * b.pegSeparation + b.pegPosition.1,
          -b.fallenRatio * b.pegSeparation + b.pegPosition.2)
  else if b.phase = PHASE_COLLECTED then
    some (b.finalBinHorizontalPosition * b.pegSeparation + b.pegPosition.1,
          -b.finalBinVerticalPosition * b.pegSeparation + b.pegPosition.2)
  else none

/-- A concrete falling ball on a 5-row board, on its last traversed row
(row 4, one peg left in `pegHistory`), with unit peg separation and the peg
at the origin so that `getPosition` returns the displacement itself. -/
def lastRowBall5 : BallState :=
  { phase := PHASE_FALLING
    fallenRatio := 1/2
    pegHistory := [{ rowNumber := 5, columnNumber := 3, direction := 1/2,
                     position := (0, 0) }]
    row := 4
    column := 3
    direction := 1/2
    pegPosition := (0, 0)
    pegSeparation := 1
    numberOfRows := 5
    binIndex := 3
    numberOfBalls := 0
    finalBinHorizontalPosition := 1/4
    finalBinVerticalPosition := 93/10 }

/-- C4: evaluation at the failing input. On a 5-row board the last traversed
row is row 4 (`numberOfRows - 1`), yet `getPosition` computes the horizontal
displacement `direction * fallenRatio = 1/4`, the plain-row form, and not
the bin-offset form `(direction + finalBinHorizontalPosition) * fallenRatio
= 3/8`: the special case is keyed to the hard-coded `row === 11` (the last
traversed row only when `numberOfRows = 12`), contradicting the claim for
every other row count. -/
theorem getPosition_lastRow_bug :
    lastRowBall5.row = lastRowBall5.numberOfRows - 1 ∧
    lastRowBall5.pegHistory.length = 1 ∧
    getPosition lastRowBall5 =
      some (lastRowBall5.direction * lastRowBall5.fallenRatio, -(1/4)) ∧
    (lastRowBall5.direction + lastRowBall5.finalBinHorizontalPosition) *
        lastRowBall5.fallenRatio = 3/8 ∧
    getPosition { lastRowBall5 with row := 11, numberOfRows := 12 } =
      some ((lastRowBall5.direction + lastRowBall5.finalBinHorizontalPosition) *
              lastRowBall5.fallenRatio, -(1/4)) := by
  refine ⟨rfl, rfl, ?_, by norm_num [lastRowBall5], ?_⟩ <;>
  · simp only [getPosition, lastRowBall5]
    norm_num [PHASE_INITIAL, PHASE_FALLING]

/-- The lab screen's per-ball phase (the 2020 `BallPhase` enumeration used
by `part_003`). -/
inductive LabPhase
  | initial
  | falling
  | exited
  | collected
deriving DecidableEq, Repr

/-- The per-ball state of the lab screen's `LabBall`: its phase, the
progress through the current phase, the remaining path entries, and its
destination bin with the stack level inside it. -/
structure LabBallState where
  phase : LabPhase
  progress : ℚ
  path : List Peg
  binIndex : ℕ
  binStackLevel : ℕ
deriving DecidableEq, Repr

/-- The lab model state touched by `part_003`: the histogram's per-bin
counts (`histogram.bins[i].binCount`), the active balls, and the
`isBallCapReached` property. -/
structure LabState where
  binCounts : List ℕ
  balls : List LabBallState
  isBallCapReached : Bool
deriving DecidableEq, Repr

/-- `part_003` lines 121-131, `addNewBall` (its state effects): `addedBall`
is the ball the `LabBall` constructor returns (the constructor itself is in
the missing `LabBall.js`); the count of its destination bin is incremented
directly (`this.histogram.bins[addedBall.binIndex].binCount++`), the ball is
appended to the ball array, and `isBallCapReached` is set when the maximum
bin count (`getMaximumActualBinCount`) reaches `maxBalls`
(`PlinkoProbabilityQueryParameters.maxBallsLab`). -/
def addNewBall (maxBalls : ℕ) (addedBall : LabBallState) (s : LabState) : LabState :=
  let binCounts :=
    s.binCounts.set addedBall.binIndex (s.binCounts.getD addedBall.binIndex 0 + 1)
  { s with
    binCounts := binCounts
    balls := s.balls ++ [addedBall]
    isBallCapReached :=
      if maxBalls ≤ binCounts.foldr max 0 then true else s.isBallCapReached }

/-- `part_003` lines 32-46: the `hopperModeProperty` listener. For every
active ball that has not yet exited the board or landed, the count of its
bin is decremented directly (`self.histogram.bins[ball.binIndex].binCount--`),
then all balls are cleared. -/
def hopperModeChanged (s : LabState) : LabState :=
  { s with
    binCounts := s.balls.foldl (fun counts ball =>
      if ball.phase = LabPhase.exited ∨ ball.phase = LabPhase.collected then counts
      else counts.set ball.binIndex (counts.getD ball.binIndex 0 - 1)) s.binCounts
    balls := [] }

/-- A concrete freshly-created lab ball headed for bin 1. -/
def labBall1 : LabBallState :=
  { phase := LabPhase.initial, progress := 0, path := [], binIndex := 1,
    binStackLevel := 1 }

/-- A concrete lab state with three empty bins and no active balls. -/
def labState3 : LabState :=
  { binCounts := [0, 0, 0], balls := [], isBallCapReached := false }

/-- C6 counterexample: ball creation is a controller operation that directly
increments a histogram bin's count — `addNewBall` on a state with bins
`[0,0,0]` yields bins `[0,1,0]` before any ball lands or any histogram
`addBall` runs. -/
theorem labBinCount_cex :
    (addNewBall 100 labBall1 labState3).binCounts = [0, 1, 0] ∧
    labState3.binCounts = [0, 0, 0] ∧
    (addNewBall 100 labBall1 labState3).binCounts ≠ labState3.binCounts := by
  decide

/-- C6 amended: in the lab model a bin's count is also mutated directly by
controller operations: `addNewBall` increments the created ball's bin count
(leaving all other bins unchanged), and the hopper-mode-change listener
decrements the bin count of each active ball that has not exited or landed
and clears the ball array. -/
theorem labBinCount_direct_mutation (maxBalls : ℕ) (b : LabBallState) (s : LabState)
    (h : b.binIndex < s.binCounts.length) :
    (addNewBall maxBalls b s).binCounts.getD b.binIndex 0 =
      s.binCounts.getD b.binIndex 0 + 1 ∧
    (∀ j, j ≠ b.binIndex →
      (addNewBall maxBalls b s).binCounts.getD j 0 = s.binCounts.getD j 0) ∧
    (b.phase ≠ LabPhase.exited → b.phase ≠ LabPhase.collected →
      (hopperModeChanged { s with balls := [b] }).binCounts.getD b.binIndex 0 =
        s.binCounts.getD b.binIndex 0 - 1) ∧
    (hopperModeChanged { s with balls := [b] }).balls = [] := by
  refine ⟨?_, fun j hj => ?_, fun he hc => ?_, rfl⟩
  · show (s.binCounts.set b.binIndex _).getD b.binIndex 0 = _
    simp [List.getD_eq_getElem?_getD, List.getElem?_set_self', h]
  · show (s.binCounts.set b.binIndex _).getD j 0 = _
    simp [List.getD_eq_getElem?_getD, List.getElem?_set_ne (Ne.symm hj)]
  · simp only [hopperModeChanged, List.foldl_cons, List.foldl_nil]
    rw [if_neg (by simp [he, hc])]
    simp [List.getD_eq_getElem?_getD, List.getElem?_set_self', h]

theorem labBinCount_direct_mutation_witness :
    labBall1.binIndex < labState3.binCounts.length ∧
    ((addNewBall 100 labBall1 labState3).binCounts.getD labBall1.binIndex 0 =
       labState3.binCounts.getD labBall1.binIndex 0 + 1 ∧
     (∀ j, j ≠ labBall1.binIndex →
       (addNewBall 100 labBall1 labState3).binCounts.getD j 0 =
         labState3.binCounts.getD j 0) ∧
     (labBall1.phase ≠ LabPhase.exited → labBall1.phase ≠ LabPhase.collected →
       (hopperModeChanged { labState3 with balls := [labBall1] }).binCounts.getD
           labBall1.binIndex 0 =
         labState3.binCounts.getD labBall1.binIndex 0 - 1) ∧
     (hopperModeChanged { labState3 with balls := [labBall1] }).balls = []) :=
  ⟨by decide, labBinCount_direct_mutation 100 labBall1 labState3 (by decide)⟩

/-- `Ball.js` lines 79-96: the path-building loop of the `Ball` constructor.
`draws` supplies the Bernoulli samples, one per row (`Math.random() <
probability`; `draws rowNumber = true` means the sample succeeded, giving
`direction = 0.5`), and `pos` is `PegInterface.getPosition` (a pure geometry
helper; the positions play no role in the claims below). The arguments are
the remaining iteration count, the current `rowNumber` and the running
`columnNumber`, which advances by `direction + 0.5` per row. -/
def buildPath (draws : ℕ → Bool) (pos : ℕ → ℚ → ℚ × ℚ) : ℕ → ℕ → ℚ → List Peg
  | 0, _, _ => []
  | fuel + 1, rowNumber, columnNumber =>
    let direction : ℚ := if draws rowNumber then 1/2 else -1/2
    { rowNumber := rowNumber, columnNumber := columnNumber,
      direction := direction, position := pos rowNumber columnNumber } ::
      buildPath draws pos fuel (rowNumber + 1) (columnNumber + (direction + 1/2))

/-- The full `pegHistory` a `Ball` is constructed with: the loop runs for
`rowNumber = 0 .. numberOfRows`, starting from column 0. -/
def pegHistoryOf (draws : ℕ → Bool) (pos : ℕ → ℚ → ℚ × ℚ) (numberOfRows : ℕ) :
    List Peg :=
  buildPath draws pos (numberOfRows + 1) 0 0

/-- `Ball.js` line 100: `this.binIndex = peg.columnNumber`, where `peg` is
the last entry pushed by the loop. -/
def ballBinIndex (draws : ℕ → Bool) (pos : ℕ → ℚ → ℚ × ℚ) (numberOfRows : ℕ) : ℚ :=
  ((pegHistoryOf draws pos numberOfRows).getLast?).elim 0 Peg.columnNumber

theorem buildPath_length (draws : ℕ → Bool) (pos : ℕ → ℚ → ℚ × ℚ) :
    ∀ fuel r c, (buildPath draws pos fuel r c).length = fuel := by
  intro fuel
  induction fuel with
  | zero => intro r c; rfl
  | succ fuel ih =>
    intro r c
    simp only [buildPath, List.length_cons, ih]

theorem buildPath_get (draws : ℕ → Bool) (pos : ℕ → ℚ → ℚ × ℚ) :
    ∀ fuel r c i (h : i < (buildPath draws pos fuel r c).length),
      ((buildPath draws pos fuel r c).get ⟨i, h⟩).rowNumber = r + i ∧
      c ≤ ((buildPath draws pos fuel r c).get ⟨i, h⟩).columnNumber ∧
      ((buildPath draws pos fuel r c).get ⟨i, h⟩).columnNumber ≤ c + i := by
  intro fuel
  induction fuel with
  | zero =>
    intro r c i h
    exact absurd h (by simp [buildPath])
  | succ fuel ih =>
    intro r c i h
    cases i with
    | zero =>
      refine ⟨rfl, ?_, ?_⟩ <;> simp [buildPath]
    | succ i =>
      have h' : i < (buildPath draws pos fuel (r + 1)
          (c + ((if draws r then (1:ℚ)/2 else -1/2) + 1/2))).length := by
        have := h
        simp only [buildPath_length] at this ⊢
        omega
      have step01 : (0:ℚ) ≤ (if draws r then (1:ℚ)/2 else -1/2) + 1/2 ∧
          (if draws r then (1:ℚ)/2 else -1/2) + 1/2 ≤ 1 := by
        by_cases hd : draws r <;> norm_num [hd]
      have hx := ih (r + 1) (c + ((if draws r then (1:ℚ)/2 else -1/2) + 1/2)) i h'
      refine ⟨?_, ?_, ?_⟩
      · show (List.get _ ⟨i, h'⟩).rowNumber = _
        rw [hx.1]; omega
      · show c ≤ (List.get _ ⟨i, h'⟩).columnNumber
        linarith [step01.1, hx.2.1]
      · push_cast
        show (List.get _ ⟨i, h'⟩).columnNumber ≤ c + ((i : ℚ) + 1)
        linarith [step01.2, hx.2.2]

theorem buildPath_col_succ (draws : ℕ → Bool) (pos : ℕ → ℚ → ℚ × ℚ) :
    ∀ fuel r c i (h : i + 1 < (buildPath draws pos fuel r c).length),
      ((buildPath draws pos fuel r c).get ⟨i + 1, h⟩).columnNumber =
        ((buildPath draws pos fuel r c).get
            ⟨i, Nat.lt_of_succ_lt h⟩).columnNumber +
          (if draws (r + i) then 1 else 0) := by
  intro fuel
  induction fuel with
  | zero =>
    intro r c i h
    exact absurd h (by simp [buildPath])
  | succ fuel ih =>
    intro r c i h
    cases i with
    | zero =>
      have hf : 0 < fuel := by
        have := h
        simp only [buildPath_length] at this
        omega
      obtain ⟨f, rfl⟩ : ∃ f, fuel = f + 1 := ⟨fuel - 1, by omega⟩
      by_cases hd : draws r <;> simp [buildPath, hd] <;> norm_num
    | succ i =>
      have h' : i + 1 < (buildPath draws pos fuel (r + 1)
          (c + ((if draws r then (1:ℚ)/2 else -1/2) + 1/2))).length := by
        have := h
        simp only [buildPath_length] at this ⊢
        omega
      have := ih (r + 1) (c + ((if draws r then (1:ℚ)/2 else -1/2) + 1/2)) i h'
      have hr : r + 1 + i = r + (i + 1) := by omega
      rw [hr] at this
      exact this

/-- C7: for every row count `n ≥ 1` (and any Bernoulli sample sequence,
hence any probability in `[0,1]`), the constructor's loop yields exactly
`n + 1` path entries, one per row `0..n`; the column of each entry advances
by 0 (left) or 1 (right) per row starting from 0; and the resulting
`binIndex` lies in `[0, n]`. -/
theorem pathGeneration_spec (draws : ℕ → Bool) (pos : ℕ → ℚ → ℚ × ℚ) (n : ℕ)
    (hn : 1 ≤ n) :
    (pegHistoryOf draws pos n).length = n + 1 ∧
    (∀ i (h : i < (pegHistoryOf draws pos n).length),
      ((pegHistoryOf draws pos n).get ⟨i, h⟩).rowNumber = i) ∧
    (∀ i (h : i + 1 < (pegHistoryOf draws pos n).length),
      ((pegHistoryOf draws pos n).get ⟨i + 1, h⟩).columnNumber =
        ((pegHistoryOf draws pos n).get ⟨i, Nat.lt_of_succ_lt h⟩).columnNumber ∨
      ((pegHistoryOf draws pos n).get ⟨i + 1, h⟩).columnNumber =
        ((pegHistoryOf draws pos n).get ⟨i, Nat.lt_of_succ_lt h⟩).columnNumber + 1) ∧
    0 ≤ ballBinIndex draws pos n ∧ ballBinIndex draws pos n ≤ n := by
  have hlen : (pegHistoryOf draws pos n).length = n + 1 :=
    buildPath_length draws pos (n + 1) 0 0
  refine ⟨hlen, ?_, ?_, ?_, ?_⟩
  · intro i h
    have := (buildPath_get draws pos (n + 1) 0 0 i h).1
    simpa using this
  · intro i h
    have hcs := buildPath_col_succ draws pos (n + 1) 0 0 i h
    by_cases hd : draws (0 + i)
    · right
      rw [if_pos hd] at hcs
      exact hcs
    · left
      rw [if_neg hd, add_zero] at hcs
      exact hcs
  · have hlast : (pegHistoryOf draws pos n).getLast? =
        some ((pegHistoryOf draws pos n).get
          ⟨n, by rw [hlen]; omega⟩) := by
      rw [List.getLast?_eq_getElem?, List.getElem?_eq_getElem (by rw [hlen]; omega)]
      congr 1
      simp [hlen]
    unfold ballBinIndex
    rw [hlast]
    simp only [Option.elim]
    exact (buildPath_get draws pos (n + 1) 0 0 n
      (by rw [buildPath_length]; omega)).2.1
  · have hlast : (pegHistoryOf draws pos n).getLast? =
        some ((pegHistoryOf draws pos n).get
          ⟨n, by rw [hlen]; omega⟩) := by
      rw [List.getLast?_eq_getElem?, List.getElem?_eq_getElem (by rw [hlen]; omega)]
      congr 1
      simp [hlen]
    unfold ballBinIndex
    rw [hlast]
    simp only [Option.elim]
    have hb := (buildPath_get draws pos (n + 1) 0 0 n
      (by rw [buildPath_length]; omega)).2.2
    simpa using hb

theorem pathGeneration_spec_witness :
    1 ≤ 2 ∧
    ((pegHistoryOf (fun _ => true) (fun _ _ => ((0:ℚ), (0:ℚ))) 2).length = 2 + 1 ∧
     (∀ i (h : i < (pegHistoryOf (fun _ => true) (fun _ _ => ((0:ℚ), (0:ℚ))) 2).length),
       ((pegHistoryOf (fun _ => true) (fun _ _ => ((0:ℚ), (0:ℚ))) 2).get ⟨i, h⟩).rowNumber = i) ∧
     (∀ i (h : i + 1 < (pegHistoryOf (fun _ => true) (fun _ _ => ((0:ℚ), (0:ℚ))) 2).length),
       ((pegHistoryOf (fun _ => true) (fun _ _ => ((0:ℚ), (0:ℚ))) 2).get ⟨i + 1, h⟩).columnNumber =
         ((pegHistoryOf (fun _ => true) (fun _ _ => ((0:ℚ), (0:ℚ))) 2).get
           ⟨i, Nat.lt_of_succ_lt h⟩).columnNumber ∨
       ((pegHistoryOf (fun _ => true) (fun _ _ => ((0:ℚ), (0:ℚ))) 2).get ⟨i + 1, h⟩).columnNumber =
         ((pegHistoryOf (fun _ => true) (fun _ _ => ((0:ℚ), (0:ℚ))) 2).get
           ⟨i, Nat.lt_of_succ_lt h⟩).columnNumber + 1) ∧
     0 ≤ ballBinIndex (fun _ => true) (fun _ _ => ((0:ℚ), (0:ℚ))) 2 ∧
     ballBinIndex (fun _ => true) (fun _ _ => ((0:ℚ), (0:ℚ))) 2 ≤ 2) :=
  ⟨by decide, pathGeneration_spec (fun _ => true) (fun _ _ => ((0:ℚ), (0:ℚ))) 2 (by decide)⟩

/-- The first loop of `getBinomialCoefficient`
(`PlinkoProbabilityIntroModel.js` lines 284-286 / `part_003` lines 192-194):
`for (i = lo; …; i++) coefficient *= i`, run for `m` iterations on the
accumulator `acc`. -/
def prodFrom (lo : ℕ) : ℕ → ℚ → ℚ
  | 0, acc => acc
  | m + 1, acc => prodFrom (lo + 1) m (acc * (lo : ℚ))

/-- The second loop of `getBinomialCoefficient`
(`PlinkoProbabilityIntroModel.js` lines 287-289 / `part_003` lines 195-197):
`for (i = lo; …; i++) coefficient /= i`, run for `m` iterations on the
accumulator `acc`. -/
def divFrom (lo : ℕ) : ℕ → ℚ → ℚ
  | 0, acc => acc
  | m + 1, acc => divFrom (lo + 1) m (acc / (lo : ℚ))

/-- `PlinkoProbabilityIntroModel.js` lines 280-291 / `part_003` lines
187-199, `getBinomialCoefficient(n, k)`: multiply `coefficient` by
`i = n-k+1 .. n` (`k` iterations when `k ≤ n`), then divide by
`i = 1 .. k`. -/
def getBinomialCoefficient (n k : ℕ) : ℚ :=
  divFrom 1 k (prodFrom (n - k + 1) k 1)

theorem prodFrom_acc (m : ℕ) : ∀ (lo : ℕ) (acc : ℚ),
    prodFrom lo m acc = acc * prodFrom lo m 1 := by
  induction m with
  | zero => intro lo acc; simp [prodFrom]
  | succ m ih =>
    intro lo acc
    show prodFrom (lo + 1) m (acc * lo) = acc * prodFrom (lo + 1) m (1 * lo)
    rw [ih (lo + 1) (acc * lo), ih (lo + 1) (1 * lo)]
    ring

theorem divFrom_acc (m : ℕ) : ∀ (lo : ℕ) (acc : ℚ),
    divFrom lo m acc = acc / prodFrom lo m 1 := by
  induction m with
  | zero => intro lo acc; simp [divFrom, prodFrom]
  | succ m ih =>
    intro lo acc
    show divFrom (lo + 1) m (acc / lo) = acc / prodFrom (lo + 1) m (1 * lo)
    rw [ih (lo + 1) (acc / lo), prodFrom_acc m (lo + 1) (1 * lo)]
    rw [div_div]
    ring_nf

theorem prodFrom_descFactorial :
    ∀ (k n : ℕ), k ≤ n → prodFrom (n - k + 1) k 1 = (n.descFactorial k : ℚ) := by
  intro k
  induction k with
  | zero => intro n _; simp [prodFrom, Nat.descFactorial]
  | succ k ih =>
    intro n hk
    have h1 : n - (k + 1) + 1 = n - k := by omega
    show prodFrom (n - (k + 1) + 1 + 1) k (1 * ((n - (k + 1) + 1 : ℕ) : ℚ)) = _
    rw [prodFrom_acc k]
    rw [h1]
    have h2 : n - k + 1 = n - k + 1 := rfl
    rw [Nat.descFactorial_succ]
    have h3 : prodFrom (n - k + 1) k 1 = (n.descFactorial k : ℚ) := ih n (by omega)
    rw [h3]
    push_cast
    ring

theorem prodFrom_factorial : ∀ (k : ℕ), prodFrom 1 k 1 = (k.factorial : ℚ) := by
  have general : ∀ (k lo : ℕ), prodFrom lo k 1 =
      ((List.range k).map (fun i => ((lo + i : ℕ) : ℚ))).prod := by
    intro k
    induction k with
    | zero => intro lo; simp [prodFrom]
    | succ k ih =>
      intro lo
      show prodFrom (lo + 1) k (1 * (lo : ℚ)) = _
      rw [prodFrom_acc k, ih (lo + 1)]
      rw [List.range_succ_eq_map]
      simp only [List.map_cons, List.prod_cons, List.map_map]
      have : ((List.range k).map fun i => ((lo + 1 + i : ℕ) : ℚ)) =
          ((List.range k).map ((fun i => ((lo + i : ℕ) : ℚ)) ∘ fun i => i + 1)) := by
        congr 1
        funext i
        simp only [Function.comp_apply]
        congr 1
        omega
      rw [this]
      push_cast
      ring
  intro k
  rw [general k 1]
  induction k with
  | zero => simp
  | succ k ih =>
    rw [List.range_succ, List.map_append, List.prod_append]
    rw [ih, Nat.factorial_succ]
    simp only [List.map_cons, List.map_nil, List.prod_cons, List.prod_nil, mul_one]
    push_cast
    ring

/-- C8: for all `0 ≤ k ≤ n`, `getBinomialCoefficient(n, k)` — computed by
multiplying `i = n-k+1 .. n` and then dividing by `i = 1 .. k`, in exact
(idealised) arithmetic — equals the standard binomial coefficient
`n choose k`; in particular it is 1 at `k = 0` and at `k = n`. -/
theorem getBinomialCoefficient_eq_choose (n k : ℕ) (h : k ≤ n) :
    getBinomialCoefficient n k = (n.choose k : ℚ) ∧
    getBinomialCoefficient n 0 = 1 ∧
    getBinomialCoefficient n n = 1 := by
  have main : ∀ j, j ≤ n → getBinomialCoefficient n j = (n.choose j : ℚ) := by
    intro j hj
    unfold getBinomialCoefficient
    rw [divFrom_acc, prodFrom_descFactorial j n hj, prodFrom_factorial]
    rw [Nat.descFactorial_eq_factorial_mul_choose]
    push_cast
    rw [mul_comm, mul_div_assoc, div_self, mul_one]
    exact_mod_cast Nat.factorial_ne_zero j
  refine ⟨main k h, ?_, ?_⟩
  · rw [main 0 (Nat.zero_le n), Nat.choose_zero_right, Nat.cast_one]
  · rw [main n (le_refl n), Nat.choose_self, Nat.cast_one]

theorem getBinomialCoefficient_eq_choose_witness :
    2 ≤ 5 ∧
    (getBinomialCoefficient 5 2 = ((5).choose 2 : ℚ) ∧
     getBinomialCoefficient 5 0 = 1 ∧
     getBinomialCoefficient 5 5 = 1) :=
  ⟨by decide, getBinomialCoefficient_eq_choose 5 2 (by decide)⟩

/-- `PlinkoProbabilityIntroModel.js` lines 258-267,
`getTheoreticalStandardDeviationOfMean`: if at least one ball has landed,
return `sqrt(numberOfRows * probability * (1 - probability) /
landedBallsNumber)`; otherwise return the string `'Not A Number'` (an
explicit non-numeric sentinel — no `NaN`, no exception). The JS
number-or-string return type is modelled as `Except String ℝ`. -/
noncomputable def getTheoreticalStandardDeviationOfMean
    (numberOfRows : ℕ) (probability : ℚ) (landedBallsNumber : ℕ) :
    Except String ℝ :=
  if 0 < landedBallsNumber then
    Except.ok (Real.sqrt
      (((numberOfRows : ℚ) * probability * (1 - probability) /
          (landedBallsNumber : ℚ) : ℚ) : ℝ))
  else Except.error "Not A Number"

/-- C9: with zero landed balls the standard deviation of the mean is the
explicit non-numeric sentinel (the string `'Not A Number'`), not `NaN` and
not an exception; with `landedBallsNumber > 0` it is
`sqrt(numberOfRows * probability * (1 - probability) / landedBallsNumber)`. -/
theorem stdDevOfMean_sentinel (numberOfRows : ℕ) (probability : ℚ) (landed : ℕ) :
    (getTheoreticalStandardDeviationOfMean numberOfRows probability 0 =
      Except.error "Not A Number") ∧
    (0 < landed →
      getTheoreticalStandardDeviationOfMean numberOfRows probability landed =
        Except.ok (Real.sqrt
          (((numberOfRows : ℚ) * probability * (1 - probability) /
              (landed : ℚ) : ℚ) : ℝ))) := by
  constructor
  · rfl
  · intro h
    unfold getTheoreticalStandardDeviationOfMean
    rw [if_pos h]

theorem stdDevOfMean_sentinel_witness :
    (getTheoreticalStandardDeviationOfMean 12 (1/2) 0 =
      Except.error "Not A Number") ∧
    0 < 1 ∧
    getTheoreticalStandardDeviationOfMean 12 (1/2) 1 =
      Except.ok (Real.sqrt
        ((((12 : ℕ) : ℚ) * (1/2) * (1 - 1/2) / ((1 : ℕ) : ℚ) : ℚ) : ℝ)) :=
  ⟨(stdDevOfMean_sentinel 12 (1/2) 1).1, by decide,
   (stdDevOfMean_sentinel 12 (1/2) 1).2 (by decide)⟩

/-- `part_003` line 83: the capped time increment of the lab model's `step`
in `'ball'` hopper mode — `Math.min( 0.090, dt * 10 )`. -/
def dtCapped (dt : ℚ) : ℚ := min (9/100) (dt * 10)

/-- Modelled from the spec: `LabBall.js` is not under `src/` (only its
caller `part_003` is), so the lab per-ball `step` follows section 4.3 of the
specification: progress accumulates at rate `5·dt`; INITIAL completes at
progress 1 and enters FALLING; each FALLING peg hop completes at progress 1
and consumes one path entry, entering EXIT when the path is exhausted; EXIT
completes at the stack-dependent threshold `7 − 0.5·stackOffset`, entering
the terminal COLLECTED. -/
def labBallStep (dt : ℚ) (b : LabBallState) : LabBallState :=
  match b.phase with
  | LabPhase.initial =>
    if b.progress + 5 * dt < 1 then { b with progress := b.progress + 5 * dt }
    else { b with phase := LabPhase.falling, progress := 0 }
  | LabPhase.falling =>
    if b.progress + 5 * dt < 1 then { b with progress := b.progress + 5 * dt }
    else
      match b.path with
      | [] => { b with phase := LabPhase.exited, progress := 0 }
      | _ :: rest =>
        if rest.isEmpty then
          { b with phase := LabPhase.exited, path := rest, progress := 0 }
        else { b with path := rest, progress := 0 }
  | LabPhase.exited =>
    if b.progress + 5 * dt < 7 - (b.binStackLevel : ℚ) / 2 then
      { b with progress := b.progress + 5 * dt }
    else { b with phase := LabPhase.collected }
  | LabPhase.collected => b

/-- `part_003` lines 79-95: the `'ball'` branch of the lab model's
`step(dt)` — every active ball is stepped with the capped increment
`dtCapped dt`, never with `dt` itself. -/
def labStepBallMode (dt : ℚ) (balls : List LabBallState) : List LabBallState :=
  balls.map (labBallStep (dtCapped dt))

/-- The position of a lab phase in the INITIAL → FALLING → EXITED →
COLLECTED order. -/
def labPhaseIndex : LabPhase → ℕ
  | LabPhase.initial => 0
  | LabPhase.falling => 1
  | LabPhase.exited => 2
  | LabPhase.collected => 3

/-- C10: in `'ball'` hopper mode the lab `step(dt)` advances every active
ball by the clamped increment `min(0.090, 10·dt)` rather than by `dt`
itself; that increment is at most `0.090` for every host-supplied `dt`; and
a single tick consumes at most one path entry (no peg is skipped) and moves
the phase forward by at most one transition (no phase is skipped). -/
theorem labStep_ball_capped (dt : ℚ) (balls : List LabBallState) :
    labStepBallMode dt balls = balls.map (labBallStep (min (9/100) (dt * 10))) ∧
    dtCapped dt ≤ 9/100 ∧
    (∀ b : LabBallState,
      b.path.length ≤ (labBallStep (dtCapped dt) b).path.length + 1 ∧
      labPhaseIndex (labBallStep (dtCapped dt) b).phase ≤ labPhaseIndex b.phase + 1) := by
  refine ⟨rfl, min_le_left _ _, fun b => ?_⟩
  rcases b with ⟨phase, progress, path, binIndex, binStackLevel⟩
  cases phase with
  | initial =>
    simp only [labBallStep]
    split_ifs <;> exact ⟨Nat.le_succ _, by simp [labPhaseIndex]⟩
  | falling =>
    simp only [labBallStep]
    split_ifs with h1
    · exact ⟨Nat.le_succ _, by simp [labPhaseIndex]⟩
    · cases path with
      | nil => exact ⟨Nat.le_succ _, by simp [labPhaseIndex]⟩
      | cons p rest =>
        by_cases hr : rest.isEmpty <;>
          simp [hr, labPhaseIndex]
  | exited =>
    simp only [labBallStep]
    split_ifs <;> exact ⟨Nat.le_succ _, by simp [labPhaseIndex]⟩
  | collected =>
    exact ⟨Nat.le_succ _, by simp [labBallStep, labPhaseIndex]⟩

end Plinko
